import Mathlib

/-!
Shallow embedding of the peer-to-peer input-synchronization core of
`src/xpong.c` (the lockstep/ack protocol of a two-player pong), together
with proofs about its per-epoch command buffer, acknowledgment handling,
delay scheduling, retransmission, epoch advancement and telemetry.

Machine integers are modelled as `Nat` with explicit reductions:
`uint16` values are reduced modulo `65536` exactly where the C code
truncates (packet `epoch` fields, the `epoch` counter increment, the
`epoch_count` statistic), and the `uint32` running sum of the statistics
is reduced modulo `2 ^ 32`.  The C `int` fields (`cmd_state_t.epoch`,
`cmd_state_t.cmd_value`) never overflow in the value ranges the program
produces, so they are plain `Nat` / `Int`.
-/

namespace XPong

/-- `BUFFER_SIZE` from `xpong.c` line 39: the command-slot ring capacity. -/
def BUFFER_SIZE : Nat := 64

/-- `CMD_DELAY` from `xpong.c` line 40: the fixed input delay in epochs. -/
def CMD_DELAY : Nat := 10

/-- `OPCODE_CMD` from `xpong.c` line 43. -/
def OPCODE_CMD : Nat := 0

/-- `OPCODE_ACK` from `xpong.c` line 44. -/
def OPCODE_ACK : Nat := 1

/-- Modulus of the C `uint16_t` type. -/
def U16_MOD : Nat := 65536

/-- Modulus of the C `uint32_t` type. -/
def U32_MOD : Nat := 4294967296

/-- Modelled from the spec: the input symbols of `cmd_t` (declared in
`simulate.h`, which is not part of the given source).  The spec fixes
`NONE = 0`; the concrete values of `UP` and `DOWN` are immaterial to every
claim, since the engine only copies command values and never inspects
them. -/
def CMD_NONE : Int := 0

/-- Modelled from the spec: the `CMD_UP` input symbol (see `CMD_NONE`). -/
def CMD_UP : Int := 1

/-- Modelled from the spec: the `CMD_DOWN` input symbol (see `CMD_NONE`). -/
def CMD_DOWN : Int := 2

/-- `cmd_state_t` from `xpong.c` lines 46-50: one ring slot, holding the
command value, the acknowledged flag, and the epoch the slot was last
written for. -/
structure cmd_state_t where
  cmd_value : Int
  cmd_ack : Bool
  epoch : Nat
deriving DecidableEq

/-- Modelled from the spec: the wire packet `net_packet_t` (declared in
`network.h`, which is not part of the given source).  Per spec section 6
it is `{ opcode: uint8, epoch: uint16, input: int }`; values assigned to
`epoch` from wider C expressions are therefore reduced mod `U16_MOD` at
the assignment, which is how `xpong.c` uses the struct. -/
structure net_packet_t where
  opcode : Nat
  epoch : Nat
  input : Int
deriving DecidableEq

/-- `win_event_t` as used by `xpong.c` (fields `up` / `down`; the `quit`
flag only exits the outer loop and plays no role in a tick). -/
structure win_event_t where
  up : Bool
  down : Bool
deriving DecidableEq

/-- The mutable protocol state of one `xpong` process: the two command
slot rings `cmd_state[2][BUFFER_SIZE]`, the `uint16_t epoch` counter, the
`received_pkt_count` counter and the `cmds[2]` array.  The rings are
modelled as a total function; only player indices `0, 1` and ring indices
`< BUFFER_SIZE` are ever touched. -/
structure EngineState where
  cmd_state : Nat → Nat → cmd_state_t
  epoch : Nat
  received_pkt_count : Nat
  cmds : Nat → Int

/-- Write one ring slot (`cmd_state[p][i] = slot`). -/
def setSlot (cs : Nat → Nat → cmd_state_t) (p i : Nat) (slot : cmd_state_t) :
    Nat → Nat → cmd_state_t :=
  fun q j => if q = p ∧ j = i then slot else cs q j

/-- Write one entry of the `cmds` array. -/
def setCmd (cs : Nat → Int) (p : Nat) (v : Int) : Nat → Int :=
  fun q => if q = p then v else cs q

/-- `other_player = player == 0 ? 1 : 0` (`xpong.c` line 77). -/
def other_player (player : Nat) : Nat := if player = 0 then 1 else 0

/-- The all-zero slot produced by the zero initialisation
`cmd_state[2][BUFFER_SIZE] = {0}` (`xpong.c` line 52). -/
def zeroSlot : cmd_state_t := ⟨0, false, 0⟩

/-- One iteration of the init loop body (`xpong.c` lines 82-87): set both
players' slot `i` to `{cmd_value = 0, cmd_ack = false, epoch = i}`. -/
def initSlotWrite (cs : Nat → Nat → cmd_state_t) (i : Nat) : Nat → Nat → cmd_state_t :=
  setSlot (setSlot cs 0 i ⟨0, false, i⟩) 1 i ⟨0, false, i⟩

/-- The startup state of the rings (`xpong.c` lines 52 and 81-88): the
global array is zero-initialised, then the loop `for i < CMD_DELAY` sets
both players' slot `i` to `{cmd_value = 0, cmd_ack = false, epoch = i}`.
Note the loop bound is `CMD_DELAY`, not `BUFFER_SIZE`. -/
def initCmdState : Nat → Nat → cmd_state_t :=
  (List.range CMD_DELAY).foldl initSlotWrite (fun _ _ => zeroSlot)

/-- The engine state after startup initialisation (`xpong.c` lines 79-95):
`epoch = 0`, `received_pkt_count = 0`.  The C `cmds` array is declared
uninitialised and is never read before being written; we give it `0`. -/
def initState : EngineState :=
  { cmd_state := initCmdState, epoch := 0, received_pkt_count := 0, cmds := fun _ => 0 }

/-- One iteration of the packet-ingestion `switch` (`xpong.c` lines
130-147): every received packet bumps `received_pkt_count`; a CMD packet
records the sender's input and epoch into the *other* player's slot at
`pkt.epoch % BUFFER_SIZE` and replies with an ACK echoing the same epoch
(the C code reuses `pkt`, setting `opcode = OPCODE_ACK` and `input = 0`);
an ACK packet sets `cmd_ack` on the local player's slot at
`pkt.epoch % BUFFER_SIZE`; any other opcode is dropped after a
diagnostic.  Returns the new state and the packets sent. -/
def processPacket (player : Nat) (s : EngineState) (p : net_packet_t) :
    EngineState × List net_packet_t :=
  let s1 := { s with received_pkt_count := s.received_pkt_count + 1 }
  if p.opcode = OPCODE_CMD then
    let idx := p.epoch % BUFFER_SIZE
    let old := s1.cmd_state (other_player player) idx
    ({ s1 with
        cmd_state := setSlot s1.cmd_state (other_player player) idx
          { old with cmd_value := p.input, epoch := p.epoch } },
      [{ opcode := OPCODE_ACK, epoch := p.epoch, input := 0 }])
  else if p.opcode = OPCODE_ACK then
    let idx := p.epoch % BUFFER_SIZE
    let old := s1.cmd_state player idx
    ({ s1 with cmd_state := setSlot s1.cmd_state player idx { old with cmd_ack := true } },
      [])
  else
    (s1, [])

/-- The `while (net_poll(&pkt))` drain loop (`xpong.c` line 130): process
the pending packets in arrival order, collecting the replies. -/
def ingest (player : Nat) (s : EngineState) : List net_packet_t → EngineState × List net_packet_t
  | [] => (s, [])
  | p :: rest =>
    let r := processPacket player s p
    let rr := ingest player r.1 rest
    (rr.1, r.2 ++ rr.2)

/-- Input sampling (`xpong.c` lines 153-159). -/
def sampleCmd (e : win_event_t) : Int :=
  if e.up then CMD_UP else if e.down then CMD_DOWN else CMD_NONE

/-- `cmds[player] = ...` from the sampled event. -/
def sampleCmds (player : Nat) (e : win_event_t) (s : EngineState) : EngineState :=
  { s with cmds := setCmd s.cmds player (sampleCmd e) }

/-- The delayed local command write (`xpong.c` lines 161-170): if the
local slot for `epoch + CMD_DELAY` does not already hold data tagged
`epoch + CMD_DELAY`, write the sampled command there with `cmd_ack`
cleared and send one CMD packet; the packet's `uint16` epoch field
truncates `epoch + CMD_DELAY` mod `U16_MOD`, while the slot's `int` epoch
field stores it exactly. -/
def localWrite (player : Nat) (s : EngineState) : EngineState × List net_packet_t :=
  let idx := (s.epoch + CMD_DELAY) % BUFFER_SIZE
  if (s.cmd_state player idx).epoch ≠ s.epoch + CMD_DELAY then
    ({ s with
        cmd_state := setSlot s.cmd_state player idx
          ⟨s.cmds player, false, s.epoch + CMD_DELAY⟩ },
      [{ opcode := OPCODE_CMD, epoch := (s.epoch + CMD_DELAY) % U16_MOD,
         input := s.cmds player }])
  else
    (s, [])

/-- The retransmission loop body (`xpong.c` lines 172-180): starting at
offset `i`, with `fuel` iterations left, find the first offset whose
local slot is unacknowledged and build the resent CMD packet for it. -/
def retransmitLoop (player : Nat) (s : EngineState) : Nat → Nat → Option net_packet_t
  | _, 0 => none
  | i, fuel + 1 =>
    if (s.cmd_state player ((s.epoch + i) % BUFFER_SIZE)).cmd_ack = false then
      some { opcode := OPCODE_CMD, epoch := (s.epoch + i) % U16_MOD,
             input := (s.cmd_state player ((s.epoch + i) % BUFFER_SIZE)).cmd_value }
    else
      retransmitLoop player s (i + 1) fuel

/-- The retransmission step: scan offsets `[0, CMD_DELAY / 2)` and resend
at most the first unacknowledged local command. -/
def retransmit (player : Nat) (s : EngineState) : Option net_packet_t :=
  retransmitLoop player s 0 (CMD_DELAY / 2)

/-- The advancement condition (`xpong.c` line 182): at least one packet
has ever been received, the other player's slot for the current epoch is
tagged with exactly that epoch, and the local player's slot for the
current epoch is acknowledged. -/
def advCond (player : Nat) (s : EngineState) : Prop :=
  s.received_pkt_count > 0 ∧
    (s.cmd_state (other_player player) (s.epoch % BUFFER_SIZE)).epoch = s.epoch ∧
    (s.cmd_state player (s.epoch % BUFFER_SIZE)).cmd_ack = true

instance advCondDecidable (player : Nat) (s : EngineState) : Decidable (advCond player s) := by
  unfold advCond
  exact inferInstance

/-- The `cmds` array after the advancement loads (`xpong.c` lines
228-229): both players' entries refreshed from the store at the current
epoch's ring index. -/
def advCmds (player : Nat) (s : EngineState) : Nat → Int :=
  setCmd
    (setCmd s.cmds (other_player player)
      (s.cmd_state (other_player player) (s.epoch % BUFFER_SIZE)).cmd_value)
    player
    (s.cmd_state player (s.epoch % BUFFER_SIZE)).cmd_value

/-- The epoch-advancement branch (`xpong.c` lines 182-234): if `advCond`
holds, load both stored commands into `cmds`, invoke the simulator once
with them (returned as `some (cmds 0, cmds 1)`, the array passed to
`sim_update`), and increment the `uint16` epoch counter once; otherwise
do nothing. -/
def advanceStep (player : Nat) (s : EngineState) : EngineState × Option (Int × Int) :=
  if advCond player s then
    ({ s with cmds := advCmds player s, epoch := (s.epoch + 1) % U16_MOD },
      some (advCmds player s 0, advCmds player s 1))
  else
    (s, none)

/-- The engine state reached just before the advancement check of a tick:
ingestion, input sampling and the delayed local write have run
(retransmission sends a packet but does not change the state). -/
def preAdvance (player : Nat) (ev : win_event_t) (pkts : List net_packet_t)
    (s : EngineState) : EngineState :=
  (localWrite player (sampleCmds player ev (ingest player s pkts).1)).1

/-- One full simulation tick (one iteration of the inner `for` loop of
`xpong.c` lines 120-236): drain packets, sample input, do the delayed
local write, retransmit, then attempt advancement.  Returns the new
state, every packet sent this tick (in send order), and the simulator
invocation of this tick, if any. -/
def tickStep (player : Nat) (ev : win_event_t) (pkts : List net_packet_t)
    (s : EngineState) : EngineState × List net_packet_t × Option (Int × Int) :=
  let a := ingest player s pkts
  let s1 := sampleCmds player ev a.1
  let b := localWrite player s1
  let r := retransmit player b.1
  let c := advanceStep player b.1
  (c.1, a.2 ++ b.2 ++ r.toList, c.2)

/-- States reachable by the engine of `player` from startup under any
sequence of ticks (arbitrary events and arbitrary incoming packets). -/
inductive Reachable (player : Nat) : EngineState → Prop where
  | init : Reachable player initState
  | tick (s : EngineState) (ev : win_event_t) (pkts : List net_packet_t) :
      Reachable player s → Reachable player (tickStep player ev pkts s).1

/-- Run a list of ticks from a state, collecting each tick's simulator
invocation (if any). -/
def runTrace (player : Nat) :
    List (win_event_t × List net_packet_t) → EngineState →
    EngineState × List (Option (Int × Int))
  | [], s => (s, [])
  | t :: rest, s =>
    let r := tickStep player t.1 t.2 s
    let rr := runTrace player rest r.1
    (rr.1, r.2.2 :: rr.2)

/-! ### Basic lemmas about slot updates and initialisation -/

theorem setSlot_self (cs : Nat → Nat → cmd_state_t) (p i : Nat) (slot : cmd_state_t) :
    setSlot cs p i slot p i = slot := by
  simp [setSlot]

theorem setSlot_miss (cs : Nat → Nat → cmd_state_t) (p i : Nat) (slot : cmd_state_t)
    {q j : Nat} (h : ¬(q = p ∧ j = i)) : setSlot cs p i slot q j = cs q j := by
  simp [setSlot, h]

theorem setSlot_setSlot (cs : Nat → Nat → cmd_state_t) (p i : Nat) (a b : cmd_state_t) :
    setSlot (setSlot cs p i a) p i b = setSlot cs p i b := by
  funext q j
  by_cases h : q = p ∧ j = i <;> simp [setSlot, h]

theorem initFold_spec (n : Nat) (cs : Nat → Nat → cmd_state_t) (p i : Nat) :
    (List.range n).foldl initSlotWrite cs p i =
      if (p = 0 ∨ p = 1) ∧ i < n then ⟨0, false, i⟩ else cs p i := by
  induction n with
  | zero => simp
  | succ n ih =>
    simp only [List.range_succ, List.foldl_append, List.foldl_cons, List.foldl_nil,
      initSlotWrite, setSlot, ih]
    have hsucc : i < n + 1 ↔ i < n ∨ i = n := Nat.lt_succ_iff_lt_or_eq
    by_cases hp0 : p = 0 <;> by_cases hp1 : p = 1 <;> by_cases hin : i = n <;>
      by_cases hlt : i < n <;> simp_all <;>
      rw [if_neg (by omega), if_neg (by omega)]

/-! ### C5: CMD ingestion -/

/-- C5: for every received CMD packet, regardless of how its epoch
compares to `current_epoch`, the engine writes `pkt.input` into the
remote player's slot at `pkt.epoch % BUFFER_SIZE`, sets that slot's epoch
field to `pkt.epoch`, leaves every other slot unchanged, and sends
exactly one ACK packet whose epoch equals the received packet's epoch. -/
theorem cmd_recorded_and_acked (player : Nat) (s : EngineState) (p : net_packet_t)
    (hop : p.opcode = OPCODE_CMD) :
    ((processPacket player s p).1.cmd_state (other_player player)
        (p.epoch % BUFFER_SIZE)).cmd_value = p.input ∧
    ((processPacket player s p).1.cmd_state (other_player player)
        (p.epoch % BUFFER_SIZE)).epoch = p.epoch ∧
    (∀ q j, ¬(q = other_player player ∧ j = p.epoch % BUFFER_SIZE) →
      (processPacket player s p).1.cmd_state q j = s.cmd_state q j) ∧
    (processPacket player s p).2 =
      [{ opcode := OPCODE_ACK, epoch := p.epoch, input := 0 }] := by
  refine ⟨?_, ?_, ?_, ?_⟩
  · simp [processPacket, hop, setSlot_self]
  · simp [processPacket, hop, setSlot_self]
  · intro q j h
    simp only [processPacket, hop, if_pos rfl]
    exact setSlot_miss _ _ _ _ h
  · simp [processPacket, hop]

/-- Witness for C5 at a concrete future-epoch packet: CMD for epoch 70
arriving while `current_epoch = 0` is still recorded and tagged 70. -/
theorem cmd_recorded_and_acked_w :
    ((processPacket 0 initState ⟨OPCODE_CMD, 70, 2⟩).1.cmd_state 1
        (70 % BUFFER_SIZE)).epoch = 70 :=
  (cmd_recorded_and_acked 0 initState ⟨OPCODE_CMD, 70, 2⟩ rfl).2.1

/-! ### C6: idempotent ingestion -/

/-- C6: packet ingestion is idempotent: for every engine state,
processing the same CMD or ACK packet a second time leaves the command
slot stores exactly as after the first processing, and the only repeated
effect is re-sending the same reply (the ACK echo for a CMD, nothing for
an ACK). -/
theorem ingestion_idempotent (player : Nat) (s : EngineState) (p : net_packet_t)
    (hop : p.opcode = OPCODE_CMD ∨ p.opcode = OPCODE_ACK) :
    (processPacket player (processPacket player s p).1 p).1.cmd_state =
      (processPacket player s p).1.cmd_state ∧
    (processPacket player (processPacket player s p).1 p).2 =
      (processPacket player s p).2 := by
  rcases hop with h | h
  · constructor
    · simp [processPacket, h, OPCODE_CMD, OPCODE_ACK, setSlot_self, setSlot_setSlot]
    · simp [processPacket, h, OPCODE_CMD, OPCODE_ACK]
  · have hne : p.opcode ≠ OPCODE_CMD := by
      rw [h]; decide
    constructor
    · simp [processPacket, h, hne, OPCODE_CMD, OPCODE_ACK, setSlot_self, setSlot_setSlot]
    · simp [processPacket, h, hne, OPCODE_CMD, OPCODE_ACK]

/-- Witness for C6: re-processing `CMD(epoch 5)` re-sends the same ACK. -/
theorem ingestion_idempotent_w :
    (processPacket 0 (processPacket 0 initState ⟨OPCODE_CMD, 5, 1⟩).1
        ⟨OPCODE_CMD, 5, 1⟩).2 =
      (processPacket 0 initState ⟨OPCODE_CMD, 5, 1⟩).2 :=
  (ingestion_idempotent 0 initState ⟨OPCODE_CMD, 5, 1⟩ (Or.inl rfl)).2

/-! ### C1: the claimed acknowledgment guard -/

/-- A state whose player-0 ring slot 0 has been recycled for epoch 64
(the same ring index as epoch 0) and is not yet acknowledged. -/
def recycledState : EngineState :=
  { initState with cmd_state := setSlot initState.cmd_state 0 0 ⟨0, false, 64⟩ }

/-- C1 fails on the code: the ACK handler (`xpong.c` line 141) has no
epoch-match guard.  With player 0's slot at ring index 0 recycled for
epoch 64 and unacknowledged, processing `ACK(epoch 0)` flips that slot's
acknowledged flag to `true`, although the claim requires it to stay
unaffected. -/
theorem ack_guard_cex :
    (recycledState.cmd_state 0 0).epoch = 64 ∧
    (recycledState.cmd_state 0 0).cmd_ack = false ∧
    ((processPacket 0 recycledState ⟨OPCODE_ACK, 0, 0⟩).1.cmd_state 0 0).cmd_ack = true := by
  decide

/-- C1 amended: processing an ACK for epoch E sets `cmd_ack = true` on
the slot at `E % BUFFER_SIZE` unconditionally — there is no epoch-match
guard — while leaving that slot's other fields and every other slot
unchanged, and sending nothing. -/
theorem ack_marks_unconditionally (player : Nat) (s : EngineState) (p : net_packet_t)
    (hop : p.opcode = OPCODE_ACK) :
    ((processPacket player s p).1.cmd_state player (p.epoch % BUFFER_SIZE)).cmd_ack = true ∧
    ((processPacket player s p).1.cmd_state player (p.epoch % BUFFER_SIZE)).cmd_value =
      (s.cmd_state player (p.epoch % BUFFER_SIZE)).cmd_value ∧
    ((processPacket player s p).1.cmd_state player (p.epoch % BUFFER_SIZE)).epoch =
      (s.cmd_state player (p.epoch % BUFFER_SIZE)).epoch ∧
    (∀ q j, ¬(q = player ∧ j = p.epoch % BUFFER_SIZE) →
      (processPacket player s p).1.cmd_state q j = s.cmd_state q j) ∧
    (processPacket player s p).2 = [] := by
  have hne : p.opcode ≠ OPCODE_CMD := by rw [hop]; decide
  refine ⟨?_, ?_, ?_, ?_, ?_⟩
  · simp [processPacket, hop, hne, OPCODE_CMD, OPCODE_ACK, setSlot_self]
  · simp [processPacket, hop, hne, OPCODE_CMD, OPCODE_ACK, setSlot_self]
  · simp [processPacket, hop, hne, OPCODE_CMD, OPCODE_ACK, setSlot_self]
  · intro q j h
    simp only [processPacket, hop, hne, if_neg hne, if_pos rfl]
    exact setSlot_miss _ _ _ _ h
  · simp [processPacket, hop, hne, OPCODE_CMD, OPCODE_ACK]

/-- Witness for the amended C1 at a concrete input. -/
theorem ack_marks_unconditionally_w :
    ((processPacket 0 initState ⟨OPCODE_ACK, 3, 0⟩).1.cmd_state 0
        (3 % BUFFER_SIZE)).cmd_ack = true :=
  (ack_marks_unconditionally 0 initState ⟨OPCODE_ACK, 3, 0⟩ rfl).1

/-! ### C8: startup slot initialisation -/

/-- C8 fails on the code: the init loop (`xpong.c` line 81) runs only
over the first `CMD_DELAY` ring indices, so slot 10 keeps the
zero-initialised epoch 0 instead of the claimed sentinel value 10. -/
theorem init_sentinel_cex :
    10 < BUFFER_SIZE ∧ (initState.cmd_state 0 10).epoch = 0 ∧
      (initState.cmd_state 0 10).epoch ≠ 10 := by
  decide

/-- C8 amended: after startup initialisation, for both players every ring
slot has input 0 and `cmd_ack = false`; the slots at indices
`i < CMD_DELAY` carry the sentinel `epoch = i`, while slots at indices
`CMD_DELAY ≤ i < BUFFER_SIZE` keep the zero-initialised `epoch = 0`. -/
theorem init_slots (p i : Nat) (hp : p < 2) (hi : i < BUFFER_SIZE) :
    initState.cmd_state p i = ⟨0, false, if i < CMD_DELAY then i else 0⟩ := by
  have hp' : p = 0 ∨ p = 1 := by omega
  show initCmdState p i = _
  rw [initCmdState, initFold_spec]
  by_cases h : i < CMD_DELAY
  · rw [if_pos ⟨hp', h⟩, if_pos h]
  · rw [if_neg (by tauto), if_neg h]
    rfl

/-- Witness for the amended C8 at the first uninitialised index. -/
theorem init_slots_w :
    initState.cmd_state 0 10 = ⟨0, false, if 10 < CMD_DELAY then 10 else 0⟩ :=
  init_slots 0 10 (by decide) (by decide)

/-! ### C3: delay scheduling of the local command -/

/-- C3 fails on the code at large epochs: with `current_epoch = 65530`
(reachable, since the `uint16` epoch counter just counts advancements),
the delayed CMD packet's `uint16` epoch field holds
`(65530 + CMD_DELAY) % U16_MOD = 4`, not `65530 + CMD_DELAY = 65540`. -/
theorem delay_tag_cex :
    ((localWrite 0 { initState with epoch := 65530 }).2.map net_packet_t.epoch) = [4] ∧
      (4 : Nat) ≠ 65530 + CMD_DELAY := by
  decide

/-- C3 amended: on a tick with `current_epoch = E`, if the local slot at
ring index `(E + CMD_DELAY) % BUFFER_SIZE` does not hold data tagged
`E + CMD_DELAY`, the engine writes the freshly sampled input there with
epoch field exactly `E + CMD_DELAY` and `cmd_ack` cleared, touches no
other slot, and sends exactly one CMD packet tagged
`(E + CMD_DELAY) % U16_MOD` — the `uint16` truncation of `E + CMD_DELAY`,
which is never `E` itself; if the slot already holds data tagged
`E + CMD_DELAY`, this path writes nothing and sends nothing. -/
theorem delayed_local_write (player : Nat) (ev : win_event_t) (s : EngineState)
    (he : s.epoch < U16_MOD) :
    (((s.cmd_state player ((s.epoch + CMD_DELAY) % BUFFER_SIZE)).epoch ≠
        s.epoch + CMD_DELAY) →
      (localWrite player (sampleCmds player ev s)).1.cmd_state player
          ((s.epoch + CMD_DELAY) % BUFFER_SIZE) =
        ⟨sampleCmd ev, false, s.epoch + CMD_DELAY⟩ ∧
      (∀ q j, ¬(q = player ∧ j = (s.epoch + CMD_DELAY) % BUFFER_SIZE) →
        (localWrite player (sampleCmds player ev s)).1.cmd_state q j = s.cmd_state q j) ∧
      (localWrite player (sampleCmds player ev s)).2 =
        [⟨OPCODE_CMD, (s.epoch + CMD_DELAY) % U16_MOD, sampleCmd ev⟩] ∧
      (s.epoch + CMD_DELAY) % U16_MOD ≠ s.epoch) ∧
    (((s.cmd_state player ((s.epoch + CMD_DELAY) % BUFFER_SIZE)).epoch =
        s.epoch + CMD_DELAY) →
      (localWrite player (sampleCmds player ev s)).1 = sampleCmds player ev s ∧
      (localWrite player (sampleCmds player ev s)).2 = []) := by
  have htag : (s.epoch + CMD_DELAY) % U16_MOD ≠ s.epoch := by
    have he' : s.epoch < 65536 := he
    show (s.epoch + 10) % 65536 ≠ s.epoch
    omega
  constructor
  · intro h
    refine ⟨?_, ?_, ?_, htag⟩
    · simp [localWrite, sampleCmds, setCmd, h, setSlot_self]
    · intro q j hqj
      simp only [localWrite, sampleCmds, setCmd]
      rw [if_pos h]
      exact setSlot_miss _ _ _ _ hqj
    · simp [localWrite, sampleCmds, setCmd, h]
  · intro h
    constructor
    · simp [localWrite, sampleCmds, setCmd, h]
    · simp [localWrite, sampleCmds, setCmd, h]

/-- Witness for the amended C3: the first tick's delayed write from the
startup state, with UP sampled, sends `CMD(epoch 10, UP)`. -/
theorem delayed_local_write_w :
    (localWrite 0 (sampleCmds 0 ⟨true, false⟩ initState)).2 =
      [⟨OPCODE_CMD, (initState.epoch + CMD_DELAY) % U16_MOD, sampleCmd ⟨true, false⟩⟩] :=
  (((delayed_local_write 0 ⟨true, false⟩ initState (by decide)).1) (by decide)).2.2.1

/-! ### C4: the retransmission window -/

theorem retransmitLoop_none (player : Nat) (s : EngineState) (i fuel : Nat)
    (h : ∀ k, k < fuel →
      (s.cmd_state player ((s.epoch + (i + k)) % BUFFER_SIZE)).cmd_ack = true) :
    retransmitLoop player s i fuel = none := by
  induction fuel generalizing i with
  | zero => rfl
  | succ n ih =>
    have h0 := h 0 (Nat.succ_pos n)
    rw [Nat.add_zero] at h0
    simp only [retransmitLoop]
    rw [if_neg (by simp [h0])]
    refine ih (i + 1) fun k hk => ?_
    have := h (k + 1) (by omega)
    have harith : i + (k + 1) = i + 1 + k := by omega
    rwa [harith] at this

theorem retransmitLoop_found (player : Nat) (s : EngineState) (i fuel k : Nat)
    (hk : k < fuel)
    (hfalse : (s.cmd_state player ((s.epoch + (i + k)) % BUFFER_SIZE)).cmd_ack = false)
    (hbefore : ∀ j, j < k →
      (s.cmd_state player ((s.epoch + (i + j)) % BUFFER_SIZE)).cmd_ack = true) :
    retransmitLoop player s i fuel =
      some ⟨OPCODE_CMD, (s.epoch + (i + k)) % U16_MOD,
        (s.cmd_state player ((s.epoch + (i + k)) % BUFFER_SIZE)).cmd_value⟩ := by
  induction fuel generalizing i k with
  | zero => omega
  | succ n ih =>
    simp only [retransmitLoop]
    by_cases h0 : (s.cmd_state player ((s.epoch + i) % BUFFER_SIZE)).cmd_ack = false
    · have hk0 : k = 0 := by
        by_contra hne
        have := hbefore 0 (by omega)
        rw [Nat.add_zero] at this
        rw [this] at h0
        exact absurd h0 (by simp)
      subst hk0
      rw [if_pos h0]
      simp
    · rw [if_neg h0]
      have hkpos : k ≠ 0 := by
        intro hzero
        subst hzero
        rw [Nat.add_zero] at hfalse
        exact h0 hfalse
      obtain ⟨k', rfl⟩ : ∃ k', k = k' + 1 := ⟨k - 1, by omega⟩
      have harith : i + (k' + 1) = i + 1 + k' := by omega
      rw [harith] at hfalse ⊢
      refine ih (i + 1) k' (by omega) hfalse fun j hj => ?_
      have := hbefore (j + 1) (by omega)
      have harith2 : i + (j + 1) = i + 1 + j := by omega
      rwa [harith2] at this

/-- C4: on every tick the retransmission step scans the window of epochs
`current_epoch + i` for offsets `0 ≤ i < CMD_DELAY / 2` in increasing
order and sends at most one CMD packet: if every scanned local slot is
acknowledged it sends nothing, and otherwise it sends exactly the packet
for the lowest offset whose local slot is unacknowledged, carrying that
slot's stored command value and that epoch's `uint16` tag. -/
theorem retransmission_policy (player : Nat) (s : EngineState) :
    ((∀ i, i < CMD_DELAY / 2 →
        (s.cmd_state player ((s.epoch + i) % BUFFER_SIZE)).cmd_ack = true) →
      retransmit player s = none) ∧
    (∀ i, i < CMD_DELAY / 2 →
      (s.cmd_state player ((s.epoch + i) % BUFFER_SIZE)).cmd_ack = false →
      (∀ j, j < i → (s.cmd_state player ((s.epoch + j) % BUFFER_SIZE)).cmd_ack = true) →
      retransmit player s =
        some ⟨OPCODE_CMD, (s.epoch + i) % U16_MOD,
          (s.cmd_state player ((s.epoch + i) % BUFFER_SIZE)).cmd_value⟩) := by
  constructor
  · intro h
    rw [retransmit]
    refine retransmitLoop_none player s 0 (CMD_DELAY / 2) fun k hk => ?_
    have := h k hk
    rwa [Nat.zero_add]
  · intro i hi hfalse hbefore
    rw [retransmit]
    have := retransmitLoop_found player s 0 (CMD_DELAY / 2) i hi
      (by rwa [Nat.zero_add]) (fun j hj => by rw [Nat.zero_add]; exact hbefore j hj)
    rwa [Nat.zero_add] at this

/-- Witness for C4: from the startup state the lowest unacknowledged
epoch in the window is epoch 0 itself, so its CMD is resent. -/
theorem retransmission_policy_w :
    retransmit 0 initState =
      some ⟨OPCODE_CMD, (initState.epoch + 0) % U16_MOD,
        (initState.cmd_state 0 ((initState.epoch + 0) % BUFFER_SIZE)).cmd_value⟩ :=
  (retransmission_policy 0 initState).2 0 (by decide) (by decide)
    (fun j hj => absurd hj (by omega))

/-! ### Tick-phase bookkeeping lemmas -/

theorem processPacket_received (player : Nat) (s : EngineState) (p : net_packet_t) :
    (processPacket player s p).1.received_pkt_count = s.received_pkt_count + 1 := by
  by_cases h1 : p.opcode = 0
  · simp [processPacket, h1, OPCODE_CMD, OPCODE_ACK]
  · by_cases h2 : p.opcode = 1 <;>
      simp [processPacket, h1, h2, OPCODE_CMD, OPCODE_ACK]

theorem processPacket_epoch (player : Nat) (s : EngineState) (p : net_packet_t) :
    (processPacket player s p).1.epoch = s.epoch := by
  by_cases h1 : p.opcode = 0
  · simp [processPacket, h1, OPCODE_CMD, OPCODE_ACK]
  · by_cases h2 : p.opcode = 1 <;>
      simp [processPacket, h1, h2, OPCODE_CMD, OPCODE_ACK]

theorem ingest_received (player : Nat) (pkts : List net_packet_t) (s : EngineState) :
    (ingest player s pkts).1.received_pkt_count = s.received_pkt_count + pkts.length := by
  induction pkts generalizing s with
  | nil => rfl
  | cons p rest ih =>
    show (ingest player (processPacket player s p).1 rest).1.received_pkt_count = _
    rw [ih, processPacket_received, List.length_cons]
    omega

theorem ingest_epoch (player : Nat) (pkts : List net_packet_t) (s : EngineState) :
    (ingest player s pkts).1.epoch = s.epoch := by
  induction pkts generalizing s with
  | nil => rfl
  | cons p rest ih =>
    show (ingest player (processPacket player s p).1 rest).1.epoch = _
    rw [ih, processPacket_epoch]

theorem localWrite_epoch (player : Nat) (s : EngineState) :
    (localWrite player s).1.epoch = s.epoch := by
  simp only [localWrite]
  split <;> rfl

theorem localWrite_received (player : Nat) (s : EngineState) :
    (localWrite player s).1.received_pkt_count = s.received_pkt_count := by
  simp only [localWrite]
  split <;> rfl

theorem advanceStep_cmd_state (player : Nat) (s : EngineState) :
    (advanceStep player s).1.cmd_state = s.cmd_state := by
  simp only [advanceStep]
  split <;> rfl

theorem advanceStep_received (player : Nat) (s : EngineState) :
    (advanceStep player s).1.received_pkt_count = s.received_pkt_count := by
  simp only [advanceStep]
  split <;> rfl

theorem advanceStep_of_neg (player : Nat) (s : EngineState) (h : ¬ advCond player s) :
    advanceStep player s = (s, none) := by
  rw [advanceStep, if_neg h]

theorem advanceStep_of_pos (player : Nat) (s : EngineState) (h : advCond player s) :
    advanceStep player s =
      ({ s with cmds := advCmds player s, epoch := (s.epoch + 1) % U16_MOD },
        some (advCmds player s 0, advCmds player s 1)) := by
  rw [advanceStep, if_pos h]

theorem advCmds_pair (player : Nat) (hp : player < 2) (s : EngineState) :
    advCmds player s 0 = (s.cmd_state 0 (s.epoch % BUFFER_SIZE)).cmd_value ∧
    advCmds player s 1 = (s.cmd_state 1 (s.epoch % BUFFER_SIZE)).cmd_value := by
  interval_cases player <;>
    exact ⟨by simp [advCmds, setCmd, other_player], by simp [advCmds, setCmd, other_player]⟩

theorem preAdvance_epoch (player : Nat) (ev : win_event_t) (pkts : List net_packet_t)
    (s : EngineState) : (preAdvance player ev pkts s).epoch = s.epoch := by
  show (localWrite player (sampleCmds player ev (ingest player s pkts).1)).1.epoch = s.epoch
  rw [localWrite_epoch]
  show (ingest player s pkts).1.epoch = s.epoch
  exact ingest_epoch player pkts s

theorem preAdvance_received_of_no_pkts (player : Nat) (ev : win_event_t) (s : EngineState) :
    (preAdvance player ev [] s).received_pkt_count = s.received_pkt_count := by
  show (localWrite player (sampleCmds player ev s)).1.received_pkt_count = _
  rw [localWrite_received]
  rfl

/-! ### The no-ack-without-a-packet invariant -/

/-- If the engine has received no packet at all, none of the local
player's slots is acknowledged (acknowledgments are set only by the ACK
handler, which also bumps `received_pkt_count`). -/
def Inv (player : Nat) (s : EngineState) : Prop :=
  s.received_pkt_count = 0 → ∀ i, (s.cmd_state player i).cmd_ack = false

theorem inv_init (player : Nat) : Inv player initState := by
  intro _ i
  show (initCmdState player i).cmd_ack = false
  rw [initCmdState, initFold_spec]
  split <;> rfl

theorem inv_ingest (player : Nat) (s : EngineState) (pkts : List net_packet_t)
    (h : Inv player s) : Inv player (ingest player s pkts).1 := by
  intro hc i
  rw [ingest_received] at hc
  have hs : s.received_pkt_count = 0 := by omega
  have hp : pkts = [] := List.length_eq_zero.mp (by omega)
  subst hp
  exact h hs i

theorem inv_sampleCmds (player q : Nat) (ev : win_event_t) (s : EngineState)
    (h : Inv player s) : Inv player (sampleCmds q ev s) := by
  intro hc i
  exact h hc i

theorem inv_localWrite (player : Nat) (s : EngineState)
    (h : Inv player s) : Inv player (localWrite player s).1 := by
  intro hc i
  have hc' : s.received_pkt_count = 0 := by rw [localWrite_received] at hc; exact hc
  simp only [localWrite]
  split
  · show ((setSlot s.cmd_state player _ _) player i).cmd_ack = false
    simp only [setSlot]
    split
    · rfl
    · exact h hc' i
  · exact h hc' i

theorem inv_advanceStep (player : Nat) (s : EngineState)
    (h : Inv player s) : Inv player (advanceStep player s).1 := by
  intro hc i
  rw [advanceStep_received] at hc
  rw [advanceStep_cmd_state]
  exact h hc i

theorem inv_preAdvance (player : Nat) (ev : win_event_t) (pkts : List net_packet_t)
    (s : EngineState) (h : Inv player s) : Inv player (preAdvance player ev pkts s) :=
  inv_localWrite player _ (inv_sampleCmds player player ev _ (inv_ingest player s pkts h))

theorem inv_tickStep (player : Nat) (ev : win_event_t) (pkts : List net_packet_t)
    (s : EngineState) (h : Inv player s) : Inv player (tickStep player ev pkts s).1 := by
  have heq : (tickStep player ev pkts s).1 =
      (advanceStep player (preAdvance player ev pkts s)).1 := rfl
  rw [heq]
  exact inv_advanceStep player _ (inv_preAdvance player ev pkts s h)

theorem reachable_inv (player : Nat) (s : EngineState) (h : Reachable player s) :
    Inv player s := by
  induction h with
  | init => exact inv_init player
  | tick s ev pkts _ ih => exact inv_tickStep player ev pkts s ih

/-! ### C2: advancement gating -/

/-- C2: on every tick of a reachable execution, the simulator is invoked
iff, at the point of the advancement check, the remote player's slot for
the current epoch is tagged exactly with that epoch and the local
player's slot for it is acknowledged (the code's additional
`received_pkt_count > 0` conjunct is implied by the acknowledgment, since
no reachable unacknowledged-free state exists without a received packet);
the current epoch at the check equals the tick's starting epoch; and when
the simulator is invoked it is invoked exactly once, with the two stored
command values for that epoch, after which the `uint16` epoch counter is
incremented exactly once. -/
theorem advancement_gating (player : Nat) (hp : player < 2) (s0 : EngineState)
    (hr : Reachable player s0) (ev : win_event_t) (pkts : List net_packet_t) :
    ((tickStep player ev pkts s0).2.2 ≠ none ↔
      ((preAdvance player ev pkts s0).cmd_state (other_player player)
          ((preAdvance player ev pkts s0).epoch % BUFFER_SIZE)).epoch =
        (preAdvance player ev pkts s0).epoch ∧
      ((preAdvance player ev pkts s0).cmd_state player
          ((preAdvance player ev pkts s0).epoch % BUFFER_SIZE)).cmd_ack = true) ∧
    (preAdvance player ev pkts s0).epoch = s0.epoch ∧
    ((tickStep player ev pkts s0).2.2 ≠ none →
      (tickStep player ev pkts s0).2.2 =
        some (((preAdvance player ev pkts s0).cmd_state 0
                ((preAdvance player ev pkts s0).epoch % BUFFER_SIZE)).cmd_value,
              ((preAdvance player ev pkts s0).cmd_state 1
                ((preAdvance player ev pkts s0).epoch % BUFFER_SIZE)).cmd_value) ∧
      (tickStep player ev pkts s0).1.epoch =
        ((preAdvance player ev pkts s0).epoch + 1) % U16_MOD) := by
  set t := preAdvance player ev pkts s0 with ht
  have hinv : Inv player t := inv_preAdvance player ev pkts s0 (reachable_inv player s0 hr)
  have hsim : (tickStep player ev pkts s0).2.2 = (advanceStep player t).2 := rfl
  have hst : (tickStep player ev pkts s0).1 = (advanceStep player t).1 := rfl
  refine ⟨?_, ?_, ?_⟩
  · constructor
    · intro hne
      by_cases hcond : advCond player t
      · exact ⟨hcond.2.1, hcond.2.2⟩
      · rw [hsim, advanceStep_of_neg player t hcond] at hne
        exact absurd rfl hne
    · intro hab
      have hcount : t.received_pkt_count > 0 := by
        by_contra hzero
        have h0 : t.received_pkt_count = 0 := by omega
        have := hinv h0 (t.epoch % BUFFER_SIZE)
        rw [this] at hab
        exact absurd hab.2 (by simp)
      rw [hsim, advanceStep_of_pos player t ⟨hcount, hab.1, hab.2⟩]
      simp
  · rw [ht]
    exact preAdvance_epoch player ev pkts s0
  · intro hne
    have hcond : advCond player t := by
      by_contra hc
      rw [hsim, advanceStep_of_neg player t hc] at hne
      exact hne rfl
    have hpair := advCmds_pair player hp t
    constructor
    · rw [hsim, advanceStep_of_pos player t hcond, hpair.1, hpair.2]
    · rw [hst, advanceStep_of_pos player t hcond]

/-- Witness for C2: from the startup state, the tick that ingests
`ACK(epoch 0)` satisfies both conditions (the remote slot for epoch 0 is
pre-seeded) and invokes the simulator. -/
theorem advancement_gating_w :
    (tickStep 0 ⟨false, false⟩ [⟨OPCODE_ACK, 0, 0⟩] initState).2.2 ≠ none :=
  (advancement_gating 0 (by decide) initState Reachable.init ⟨false, false⟩
      [⟨OPCODE_ACK, 0, 0⟩]).1.mpr ⟨by decide, by decide⟩

/-! ### C10: the de-facto start gate -/

theorem tickStep_no_pkts (player : Nat) (ev : win_event_t) (s : EngineState)
    (hc : s.received_pkt_count = 0) :
    (tickStep player ev [] s).1.received_pkt_count = 0 ∧
    (tickStep player ev [] s).1.epoch = s.epoch ∧
    (tickStep player ev [] s).2.2 = none := by
  have hcount : (preAdvance player ev [] s).received_pkt_count = 0 := by
    rw [preAdvance_received_of_no_pkts]
    exact hc
  have hnc : ¬ advCond player (preAdvance player ev [] s) := by
    intro h
    have hpos := h.1
    rw [hcount] at hpos
    exact absurd hpos (by decide)
  have h1 : (tickStep player ev [] s).1 =
      (advanceStep player (preAdvance player ev [] s)).1 := rfl
  have h2 : (tickStep player ev [] s).2.2 =
      (advanceStep player (preAdvance player ev [] s)).2 := rfl
  rw [h1, h2, advanceStep_of_neg player _ hnc]
  refine ⟨hcount, ?_, rfl⟩
  exact preAdvance_epoch player ev [] s

theorem runTrace_no_pkts (player : Nat) (ticks : List (win_event_t × List net_packet_t))
    (s : EngineState) (hem : ∀ t ∈ ticks, t.2 = ([] : List net_packet_t))
    (hc : s.received_pkt_count = 0) :
    (runTrace player ticks s).1.received_pkt_count = 0 ∧
    (runTrace player ticks s).1.epoch = s.epoch ∧
    (∀ o ∈ (runTrace player ticks s).2, o = none) := by
  induction ticks generalizing s with
  | nil =>
    refine ⟨hc, rfl, ?_⟩
    intro o ho
    simp [runTrace] at ho
  | cons t rest ih =>
    have hts : t.2 = [] := hem t (List.mem_cons_self t rest)
    simp only [runTrace, hts]
    have hstep := tickStep_no_pkts player t.1 s hc
    have ihr := ih (tickStep player t.1 [] s).1
      (fun u hu => hem u (List.mem_cons_of_mem t hu)) hstep.1
    refine ⟨ihr.1, ?_, ?_⟩
    · rw [ihr.2.1, hstep.2.1]
    · intro o ho
      rcases List.mem_cons.mp ho with ho | ho
      · rw [ho]
        exact hstep.2.2
      · exact ihr.2.2 o ho

/-- C10: the engine never invokes the simulator nor moves `current_epoch`
off 0 before at least one packet of any opcode has been received: over
any run whose ticks deliver no packets, the epoch stays 0 and no tick
invokes the simulator; and the advancement branch can only fire in a
state with a positive received-packet count — the de-facto start gate. -/
theorem no_advance_before_first_packet (player : Nat)
    (ticks : List (win_event_t × List net_packet_t))
    (hem : ∀ t ∈ ticks, t.2 = ([] : List net_packet_t)) :
    (runTrace player ticks initState).1.epoch = 0 ∧
    (∀ o ∈ (runTrace player ticks initState).2, o = none) ∧
    (∀ s : EngineState, (advanceStep player s).2 ≠ none → s.received_pkt_count > 0) := by
  have aux := runTrace_no_pkts player ticks initState hem rfl
  refine ⟨aux.2.1, aux.2.2, ?_⟩
  intro s hne
  by_contra hzero
  have h0 : s.received_pkt_count = 0 := by omega
  have hnc : ¬ advCond player s := by
    intro h
    have hpos := h.1
    rw [h0] at hpos
    exact absurd hpos (by decide)
  rw [advanceStep_of_neg player s hnc] at hne
  exact hne rfl

/-- Witness for C10: a two-tick run with no packets keeps the epoch at 0. -/
theorem no_advance_before_first_packet_w :
    (runTrace 0 [(⟨false, false⟩, []), (⟨true, false⟩, [])] initState).1.epoch = 0 :=
  (no_advance_before_first_packet 0 [(⟨false, false⟩, []), (⟨true, false⟩, [])]
    (by decide)).1

/-! ### C7: there is no START opcode -/

/-- C7 fails on the code: on the very first tick from startup (nothing
yet received, game not started), the engine sends the delayed
`CMD(epoch 10)` and the retransmitted `CMD(epoch 0)` — both with opcode
`OPCODE_CMD` — and no opcode-2 (START) packet at all. -/
theorem start_pkt_cex :
    ((tickStep 0 ⟨false, false⟩ [] initState).2.1.map net_packet_t.opcode) =
      [OPCODE_CMD, OPCODE_CMD] ∧
    (2 : Nat) ∉ ((tickStep 0 ⟨false, false⟩ [] initState).2.1.map net_packet_t.opcode) := by
  decide

theorem processPacket_sent (player : Nat) (s : EngineState) (p : net_packet_t)
    (q : net_packet_t) (hq : q ∈ (processPacket player s p).2) : q.opcode = OPCODE_ACK := by
  by_cases h1 : p.opcode = 0
  · simp [processPacket, h1, OPCODE_CMD, OPCODE_ACK] at hq
    simp [hq, OPCODE_ACK]
  · by_cases h2 : p.opcode = 1 <;>
      simp [processPacket, h1, h2, OPCODE_CMD, OPCODE_ACK] at hq

theorem ingest_sent (player : Nat) (pkts : List net_packet_t) (s : EngineState)
    (q : net_packet_t) (hq : q ∈ (ingest player s pkts).2) : q.opcode = OPCODE_ACK := by
  induction pkts generalizing s with
  | nil => simp [ingest] at hq
  | cons p rest ih =>
    have heq : (ingest player s (p :: rest)).2 =
        (processPacket player s p).2 ++
          (ingest player (processPacket player s p).1 rest).2 := rfl
    rw [heq] at hq
    rcases List.mem_append.mp hq with h | h
    · exact processPacket_sent player s p q h
    · exact ih _ h

theorem localWrite_sent (player : Nat) (s : EngineState) (q : net_packet_t)
    (hq : q ∈ (localWrite player s).2) : q.opcode = OPCODE_CMD := by
  by_cases h : (s.cmd_state player ((s.epoch + CMD_DELAY) % BUFFER_SIZE)).epoch ≠
      s.epoch + CMD_DELAY
  · simp only [localWrite, if_pos h] at hq
    simp at hq
    simp [hq, OPCODE_CMD]
  · simp only [localWrite, if_neg h] at hq
    simp at hq

theorem retransmitLoop_sent (player : Nat) (s : EngineState) (fuel : Nat) :
    ∀ (i : Nat) (q : net_packet_t), q ∈ (retransmitLoop player s i fuel).toList →
      q.opcode = OPCODE_CMD := by
  induction fuel with
  | zero =>
    intro i q hq
    simp [retransmitLoop] at hq
  | succ n ih =>
    intro i q hq
    simp only [retransmitLoop] at hq
    by_cases h : (s.cmd_state player ((s.epoch + i) % BUFFER_SIZE)).cmd_ack = false
    · rw [if_pos h] at hq
      simp at hq
      simp [hq, OPCODE_CMD]
    · rw [if_neg h] at hq
      exact ih (i + 1) q hq

/-- C7 amended: the engine defines no START opcode and never sends one:
every packet produced by any tick has opcode `OPCODE_CMD` or
`OPCODE_ACK`.  A received packet whose opcode is neither `OPCODE_CMD`
nor `OPCODE_ACK` (such as 2) is dropped without touching the slot stores
and without any reply, but — like every received packet — it increments
`received_pkt_count`, whose positivity is the engine's de-facto start
gate. -/
theorem no_start_opcode (player : Nat) (ev : win_event_t) (pkts : List net_packet_t)
    (s : EngineState) :
    (∀ q ∈ (tickStep player ev pkts s).2.1,
      q.opcode = OPCODE_CMD ∨ q.opcode = OPCODE_ACK) ∧
    (∀ p : net_packet_t, p.opcode ≠ OPCODE_CMD → p.opcode ≠ OPCODE_ACK →
      (processPacket player s p).1.cmd_state = s.cmd_state ∧
      (processPacket player s p).1.received_pkt_count = s.received_pkt_count + 1 ∧
      (processPacket player s p).2 = []) := by
  constructor
  · intro q hq
    have hsent : (tickStep player ev pkts s).2.1 =
        (ingest player s pkts).2 ++
          (localWrite player (sampleCmds player ev (ingest player s pkts).1)).2 ++
          (retransmit player
            (localWrite player (sampleCmds player ev (ingest player s pkts).1)).1).toList :=
      rfl
    rw [hsent] at hq
    rcases List.mem_append.mp hq with h | h
    · rcases List.mem_append.mp h with h' | h'
      · exact Or.inr (ingest_sent player pkts s q h')
      · exact Or.inl (localWrite_sent player _ q h')
    · exact Or.inl (retransmitLoop_sent player _ (CMD_DELAY / 2) 0 q h)
  · intro p hcmd hack
    refine ⟨?_, ?_, ?_⟩ <;> simp [processPacket, hcmd, hack]

/-- Witness for the amended C7: an opcode-2 packet is dropped without
touching the stores and without a reply. -/
theorem no_start_opcode_w :
    (processPacket 0 initState ⟨2, 5, 0⟩).1.cmd_state = initState.cmd_state ∧
    (processPacket 0 initState ⟨2, 5, 0⟩).2 = [] :=
  ⟨((no_start_opcode 0 ⟨false, false⟩ [] initState).2 ⟨2, 5, 0⟩ (by decide) (by decide)).1,
   ((no_start_opcode 0 ⟨false, false⟩ [] initState).2 ⟨2, 5, 0⟩ (by decide) (by decide)).2.2⟩

/-! ### C9: the rolling-average telemetry -/

/-- The rolling-statistics state (`xpong.c` lines 106-110): the
`last_100_epoch_times` buffer (100 `uint32` cells, zero-initialised), the
`uint16` write index `epoch_time_index`, and the `uint16` total count
`epoch_count`. -/
structure EpochStats where
  buf : List Nat
  idx : Nat
  count : Nat
deriving DecidableEq

/-- The statistics at startup: a zeroed buffer, index 0, count 0. -/
def initStats : EpochStats := ⟨List.replicate 100 0, 0, 0⟩

/-- Recording one epoch duration (`xpong.c` lines 194-198): store it at
the current index, step the index cyclically, bump the `uint16` count. -/
def recordTime (st : EpochStats) (t : Nat) : EpochStats :=
  ⟨st.buf.set st.idx t, (st.idx + 1) % 100, (st.count + 1) % U16_MOD⟩

/-- The statistics after recording a list of durations in order. -/
def statsOf (ds : List Nat) : EpochStats := ds.foldl recordTime initStats

/-- The reported window width (`xpong.c` line 203):
`count = epoch_count < 100 ? epoch_count : 100`. -/
def reported_width (st : EpochStats) : Nat := if st.count < 100 then st.count else 100

/-- The reported sum (`xpong.c` lines 207-220): with fewer than 100
samples, the `uint32` sum of buffer cells `[0, count)`; otherwise the
`uint32` sum of the whole circular buffer, read from `idx` to the end
and then from the start to `idx`. -/
def reported_sum (st : EpochStats) : Nat :=
  (if st.count < 100 then (st.buf.take st.count).sum
   else (st.buf.drop st.idx).sum + (st.buf.take st.idx).sum) % U32_MOD

/-- The reported average (`xpong.c` line 221): `sum / count` in `uint32`
integer division. -/
def reported_avg (st : EpochStats) : Nat := reported_sum st / reported_width st

theorem rotate_set_step (buf : List Nat) (i d : Nat)
    (hlen : buf.length = 100) (hi : i < 100) :
    (buf.set i d).drop ((i + 1) % 100) ++ (buf.set i d).take ((i + 1) % 100) =
      (buf.drop i ++ buf.take i).tail ++ [d] := by
  have hset : buf.set i d = buf.take i ++ d :: buf.drop (i + 1) := by
    rw [List.set_eq_take_append_cons_drop, if_pos (by omega)]
  have hlentake : (buf.take i).length = i := by
    rw [List.length_take]
    omega
  have hdropi : buf.drop i = buf[i] :: buf.drop (i + 1) :=
    List.drop_eq_getElem_cons (by omega)
  by_cases h99 : i = 99
  · subst h99
    have hmod : (99 + 1) % 100 = 0 := by norm_num
    have hB : buf.drop (99 + 1) = [] := List.drop_of_length_le (by omega)
    rw [hmod, List.drop_zero, List.take_zero, List.append_nil, hset, hB, hdropi, hB]
    simp
  · have hmod : (i + 1) % 100 = i + 1 := Nat.mod_eq_of_lt (by omega)
    rw [hmod, hset, hdropi, List.drop_append_eq_append_drop, List.take_append_eq_append_take]
    simp only [hlentake]
    have h1 : (buf.take i).drop (i + 1) = [] :=
      List.drop_of_length_le (by rw [hlentake]; omega)
    have h2 : (buf.take i).take (i + 1) = buf.take i :=
      List.take_of_length_le (by rw [hlentake]; omega)
    have h3 : i + 1 - i = 1 := by omega
    rw [h1, h2, h3]
    simp only [List.nil_append, List.drop_succ_cons, List.drop_zero, List.take_succ_cons,
      List.take_zero]
    simp only [List.cons_append, List.tail_cons, List.append_assoc]

theorem statsOf_append (ds : List Nat) (d : Nat) :
    statsOf (ds ++ [d]) = recordTime (statsOf ds) d := by
  simp [statsOf]

theorem statsOf_buf_length (ds : List Nat) : (statsOf ds).buf.length = 100 := by
  induction ds using List.reverseRecOn with
  | nil => simp [statsOf, initStats]
  | append_singleton ds d ih =>
    rw [statsOf_append]
    simp [recordTime, ih]

theorem statsOf_idx (ds : List Nat) : (statsOf ds).idx = ds.length % 100 := by
  induction ds using List.reverseRecOn with
  | nil => rfl
  | append_singleton ds d ih =>
    rw [statsOf_append]
    show ((statsOf ds).idx + 1) % 100 = _
    rw [ih, List.length_append]
    simp only [List.length_singleton]
    omega

theorem statsOf_count (ds : List Nat) : (statsOf ds).count = ds.length % U16_MOD := by
  induction ds using List.reverseRecOn with
  | nil => rfl
  | append_singleton ds d ih =>
    rw [statsOf_append]
    show ((statsOf ds).count + 1) % U16_MOD = _
    rw [ih, List.length_append]
    simp only [List.length_singleton, U16_MOD]
    omega

/-- The circular buffer, read starting at the write index, always holds
the initial zero padding followed by the most recent
`min (number of recordings) 100` durations, in order. -/
theorem statsOf_rotation (ds : List Nat) :
    (statsOf ds).buf.drop (statsOf ds).idx ++ (statsOf ds).buf.take (statsOf ds).idx =
      List.replicate (100 - min ds.length 100) 0 ++ ds.drop (ds.length - 100) := by
  induction ds using List.reverseRecOn with
  | nil => simp [statsOf, initStats]
  | append_singleton ds d ih =>
    have hlen := statsOf_buf_length ds
    have hidx : (statsOf ds).idx < 100 := by
      rw [statsOf_idx]
      omega
    have hstep := rotate_set_step (statsOf ds).buf (statsOf ds).idx d hlen hidx
    rw [statsOf_append]
    show ((statsOf ds).buf.set (statsOf ds).idx d).drop (((statsOf ds).idx + 1) % 100) ++
        ((statsOf ds).buf.set (statsOf ds).idx d).take (((statsOf ds).idx + 1) % 100) = _
    rw [hstep, ih, List.length_append, List.length_singleton]
    by_cases hn : ds.length < 100
    · have hmin : min ds.length 100 = ds.length := by omega
      have hmin' : min (ds.length + 1) 100 = ds.length + 1 := by omega
      have hd0 : ds.length - 100 = 0 := by omega
      have hd1 : ds.length + 1 - 100 = 0 := by omega
      have hrep : 100 - ds.length = (100 - (ds.length + 1)) + 1 := by omega
      rw [hmin, hmin', hd0, hd1, List.drop_zero, List.drop_zero, hrep,
        List.replicate_succ]
      simp
    · have hmin : min ds.length 100 = 100 := by omega
      have hmin' : min (ds.length + 1) 100 = 100 := by omega
      rw [hmin, hmin']
      simp only [Nat.sub_self, List.replicate_zero, List.nil_append]
      rw [List.tail_drop, List.drop_append_eq_append_drop]
      have e1 : ds.length - 100 + 1 = ds.length + 1 - 100 := by omega
      have e2 : ds.length + 1 - 100 - ds.length = 0 := by omega
      rw [e1, e2, List.drop_zero]

/-- C9: the reported rolling average is computed over
`min (samples recorded) 100` values: with fewer than 100 recorded
durations it is the (integer) mean of all of them, and with at least 100
it is the mean of exactly the 100 most recent, provided the window's sum
fits in the `uint32` accumulator and the `uint16` sample counter has not
wrapped. -/
theorem rolling_average (ds : List Nat) (hne : ds ≠ [])
    (hlen : ds.length < U16_MOD)
    (helem : ∀ t ∈ ds, t < U32_MOD)
    (hsum : (ds.drop (ds.length - 100)).sum < U32_MOD) :
    reported_width (statsOf ds) = min ds.length 100 ∧
    reported_avg (statsOf ds) =
      (ds.drop (ds.length - min ds.length 100)).sum / min ds.length 100 := by
  have hcount : (statsOf ds).count = ds.length := by
    rw [statsOf_count]
    exact Nat.mod_eq_of_lt hlen
  have hrot := statsOf_rotation ds
  by_cases hn : ds.length < 100
  · have hmin : min ds.length 100 = ds.length := by omega
    have hidx : (statsOf ds).idx = ds.length := by
      rw [statsOf_idx]
      omega
    have hd0 : ds.length - 100 = 0 := by omega
    rw [hd0, List.drop_zero] at hrot
    have htake : (statsOf ds).buf.take ds.length = ds := by
      have hdl : ((statsOf ds).buf.drop ds.length).length = 100 - ds.length := by
        rw [List.length_drop, statsOf_buf_length]
      have hrl : (List.replicate (100 - min ds.length 100) (0 : Nat)).length =
          100 - ds.length := by
        rw [List.length_replicate, hmin]
      have := congrArg (List.drop (100 - ds.length)) hrot
      rw [hidx] at this
      rwa [List.drop_left' hdl, List.drop_left' hrl] at this
    have hwidth : reported_width (statsOf ds) = ds.length := by
      rw [reported_width, hcount, if_pos hn]
    refine ⟨by rw [hwidth, hmin], ?_⟩
    rw [reported_avg, hwidth, reported_sum, hcount, if_pos hn, htake, hmin,
      Nat.sub_self, List.drop_zero]
    rw [Nat.mod_eq_of_lt (by rw [hd0, List.drop_zero] at hsum; exact hsum)]
  · have hmin : min ds.length 100 = 100 := by omega
    have hwidth : reported_width (statsOf ds) = 100 := by
      rw [reported_width, hcount, if_neg hn]
    refine ⟨by rw [hwidth, hmin], ?_⟩
    have hsum2 : (statsOf ds).buf.drop (statsOf ds).idx ++
        (statsOf ds).buf.take (statsOf ds).idx = ds.drop (ds.length - 100) := by
      rw [hrot, hmin]
      simp
    have hsums : ((statsOf ds).buf.drop (statsOf ds).idx).sum +
        ((statsOf ds).buf.take (statsOf ds).idx).sum = (ds.drop (ds.length - 100)).sum := by
      rw [← List.sum_append, hsum2]
    rw [reported_avg, hwidth, reported_sum, hcount, if_neg hn, hsums, hmin,
      Nat.mod_eq_of_lt hsum]

set_option maxRecDepth 10000 in
/-- Witness for C9 at the spec's own scenario size: after exactly 150
recorded durations the reported average is the mean of the last 100. -/
theorem rolling_average_w :
    reported_avg (statsOf (List.replicate 150 2)) =
      ((List.replicate 150 2).drop ((List.replicate 150 2).length -
          min (List.replicate 150 2).length 100)).sum /
        min (List.replicate 150 2).length 100 :=
  (rolling_average (List.replicate 150 2) (by decide) (by decide) (by decide)
    (by decide)).2

end XPong
